import Mathlib

/-!
Shallow embedding of the todo-list application (src/types.ts, src/App.tsx).

Conventions of the embedding:
* TypeScript optional fields (`dueDate?: string`) become `Option`.
* JavaScript string truthiness (`if (todo.dueDate && ...)`) is modelled by
  `strTruthy`: `undefined` and the empty string are falsy.
* `new Date(dateStr + "T" + timeStr)` is modelled by `parseDateTime`,
  which parses the documented `YYYY-MM-DDTHH:MM` local wall-clock format
  into milliseconds on a local wall-clock axis; an unparseable string
  yields `none`, standing for JavaScript's Invalid Date, and the
  comparison `now >= dueDateTime` is then `false` (NaN comparison).
* Times (`Date.now()`, the scanner's `now`) are integers of local
  wall-clock milliseconds.
-/

/-- Structure `Todo` from src/types.ts: optional fields are `Option`. -/
structure Todo where
  id : String
  text : String
  completed : Bool
  createdAt : Nat
  dueDate : Option String
  dueTime : Option String
  notified : Option Bool
  deriving DecidableEq, Repr

/-- Type `FilterType` from src/types.ts. -/
inductive FilterType where
  | all
  | active
  | completed
  deriving DecidableEq, Repr

/-- Type `TodoUpdatePayload = Partial<Omit<Todo, 'id' | 'createdAt'>>` from
src/types.ts: the outer `Option` is presence of the key in the partial
update, the inner type is the field's own (possibly optional) type. -/
structure TodoUpdatePayload where
  text : Option String
  completed : Option Bool
  dueDate : Option (Option String)
  dueTime : Option (Option String)
  notified : Option (Option Bool)
  deriving DecidableEq, Repr

/-- JavaScript truthiness of an optional string: `undefined` and `""` are
falsy, every other string is truthy. -/
def strTruthy : Option String → Bool
  | none => false
  | some s => !s.isEmpty

/-- JavaScript truthiness of the optional boolean `todo.notified`:
`undefined` and `false` are falsy. -/
def notifiedTruthy (t : Todo) : Bool :=
  t.notified.getD false

/-- Value of a decimal digit character, `none` for a non-digit. -/
def digitVal (c : Char) : Option Nat :=
  if c.isDigit then some (c.toNat - 48) else none

/-- Gregorian leap year. -/
def isLeap (y : Nat) : Bool :=
  (y % 4 == 0 && y % 100 != 0) || y % 400 == 0

/-- Days in a month (1..12) of year `y`. -/
def daysInMonth (y m : Nat) : Nat :=
  if m == 2 then (if isLeap y then 29 else 28)
  else if m == 4 || m == 6 || m == 9 || m == 11 then 30
  else 31

/-- Days from 1970-01-01 to year `y`, month `m`, day `d` (proleptic
Gregorian, Hinnant's civil-from-days inverse), as used by the JavaScript
Date object for ISO date strings. -/
def daysFromCivil (y m d : Nat) : Int :=
  let y' : Int := if m ≤ 2 then (y : Int) - 1 else (y : Int)
  let era : Int := (if 0 ≤ y' then y' else y' - 399) / 400
  let yoe : Int := y' - era * 400
  let doy : Int := (153 * ((m : Int) + (if 2 < m then -3 else 9)) + 2) / 5 + (d : Int) - 1
  let doe : Int := yoe * 365 + yoe / 4 - yoe / 100 + doy
  era * 146097 + doe - 719468

/-- Model of `new Date(dueDate + "T" + dueTime)` for the documented
`YYYY-MM-DD` / `HH:MM` formats: component-wise digit parse with range
validation (the ECMAScript date-time string format), producing local
wall-clock milliseconds; any other shape gives `none` (Invalid Date). -/
def parseDateTime (date time : String) : Option Int :=
  match date.data, time.data with
  | [y1, y2, y3, y4, '-', m1, m2, '-', d1, d2], [h1, h2, ':', n1, n2] =>
    match digitVal y1, digitVal y2, digitVal y3, digitVal y4,
          digitVal m1, digitVal m2, digitVal d1, digitVal d2,
          digitVal h1, digitVal h2, digitVal n1, digitVal n2 with
    | some a, some b, some c, some d, some m10, some m1v,
      some d10, some d1v, some h10, some h1v, some n10, some n1v =>
      let y := ((a * 10 + b) * 10 + c) * 10 + d
      let m := m10 * 10 + m1v
      let dd := d10 * 10 + d1v
      let h := h10 * 10 + h1v
      let n := n10 * 10 + n1v
      if 1 ≤ m ∧ m ≤ 12 ∧ 1 ≤ dd ∧ dd ≤ daysInMonth y m ∧ h ≤ 23 ∧ n ≤ 59 then
        some (((daysFromCivil y m dd * 24 + (h : Int)) * 60 + (n : Int)) * 60000)
      else
        none
    | _, _, _, _, _, _, _, _, _, _, _, _ => none
  | _, _ => none

/-- The per-todo test of `checkNotifications` (src/App.tsx:38-40): the
truthiness guard, then `now >= new Date(dueDate + "T" + dueTime)`. -/
def shouldAlert (now : Int) (t : Todo) : Bool :=
  if strTruthy t.dueDate && strTruthy t.dueTime && !t.completed && !notifiedTruthy t then
    match parseDateTime (t.dueDate.getD "") (t.dueTime.getD "") with
    | some due => decide (due ≤ now)
    | none => false
  else
    false

/-- The `setTodos(prev => prev.map(t => t.id === todo.id ? \x7b...t,
notified: true\x7d : t))` functional update of src/App.tsx:46-50. -/
def markNotified (id : String) (l : List Todo) : List Todo :=
  l.map fun t => if t.id == id then { t with notified := some true } else t

/-- The `todos.forEach` loop of `checkNotifications`: the accumulator
carries the alerts emitted so far and the collection as rebuilt by the
queued functional state updates. -/
def checkAux (now : Int) : List Todo → List String × List Todo → List String × List Todo
  | [], acc => acc
  | t :: rest, acc =>
    checkAux now rest
      (if shouldAlert now t then (acc.1 ++ [t.text], markNotified t.id acc.2) else acc)

/-- One scan pass of `checkNotifications` (src/App.tsx:35-54) at time
`now` over the snapshot `todos`: returns the bodies of the emitted
notifications, in emission order, and the resulting collection. -/
def checkNotifications (now : Int) (todos : List Todo) : List String × List Todo :=
  checkAux now todos ([], todos)

/-- Function `addTodo` (src/App.tsx:86-97); `crypto.randomUUID()` and `Date.now()`
are modelled as the explicit arguments `freshId` and `now`. -/
def addTodo (freshId : String) (now : Nat) (text : String)
    (dueDate dueTime : Option String) (todos : List Todo) : List Todo :=
  { id := freshId
    text := text
    completed := false
    createdAt := now
    dueDate := dueDate
    dueTime := dueTime
    notified := some false } :: todos

/-- Function `toggleTodo` (src/App.tsx:99-105). -/
def toggleTodo (id : String) (todos : List Todo) : List Todo :=
  todos.map fun todo =>
    if todo.id == id then { todo with completed := !todo.completed } else todo

/-- Function `deleteTodo` (src/App.tsx:107-109). -/
def deleteTodo (id : String) (todos : List Todo) : List Todo :=
  todos.filter fun todo => todo.id != id

/-- The object spread `\x7b...todo, ...updates\x7d`: a key present in
`updates` replaces the field, an absent key keeps it; `id` and
`createdAt` cannot occur in a `TodoUpdatePayload`. -/
def applyUpdate (todo : Todo) (updates : TodoUpdatePayload) : Todo :=
  { id := todo.id
    text := updates.text.getD todo.text
    completed := updates.completed.getD todo.completed
    createdAt := todo.createdAt
    dueDate := updates.dueDate.getD todo.dueDate
    dueTime := updates.dueTime.getD todo.dueTime
    notified := updates.notified.getD todo.notified }

/-- Function `editTodo` (src/App.tsx:111-117). -/
def editTodo (id : String) (updates : TodoUpdatePayload) (todos : List Todo) : List Todo :=
  todos.map fun todo =>
    if todo.id == id then applyUpdate todo updates else todo

/-- Function `clearCompleted` (src/App.tsx:119-121). -/
def clearCompleted (todos : List Todo) : List Todo :=
  todos.filter fun todo => !todo.completed

/-- Derivation `filteredTodos` (src/App.tsx:123-127). -/
def filteredTodos (filter : FilterType) (todos : List Todo) : List Todo :=
  todos.filter fun todo =>
    if filter == FilterType.active then !todo.completed
    else if filter == FilterType.completed then todo.completed
    else true

/-- Derivation `activeCount` (src/App.tsx:129). -/
def activeCount (todos : List Todo) : Nat :=
  (todos.filter fun todo => !todo.completed).length

/-- Derivation `completedCount` (src/App.tsx:130). -/
def completedCount (todos : List Todo) : Nat :=
  todos.length - activeCount todos

/-!
Persistence layer (src/App.tsx:63-83). `JSON.stringify` / `JSON.parse`
are modelled over an explicit inductive of JSON values. Numbers are
modelled as integers (the application only ever stores the integer
`createdAt` timestamp); insignificant whitespace is not modelled (the
application's own output contains none).
-/

/-- Values of JSON, the exchange format of the durable slot. -/
inductive Json where
  | null
  | bool (b : Bool)
  | num (n : Int)
  | str (s : String)
  | arr (items : List Json)
  | obj (fields : List (String × Json))
  deriving Repr

/-- Lowercase hexadecimal digit for a value below 16. -/
def hexChar (n : Nat) : Char :=
  if n < 10 then Char.ofNat (48 + n) else Char.ofNat (87 + n)

/-- Escaping of a single string character, as performed by
`JSON.stringify`: quote and backslash get two-character escapes, the
five named control characters get their short escapes, the remaining
control characters get a `\u00XX` escape, and everything else is kept
literally. -/
def escapeChar (c : Char) : List Char :=
  if c = '"' then ['\\', '"']
  else if c = '\\' then ['\\', '\\']
  else if c = '\x08' then ['\\', 'b']
  else if c = '\x09' then ['\\', 't']
  else if c = '\x0a' then ['\\', 'n']
  else if c = '\x0c' then ['\\', 'f']
  else if c = '\x0d' then ['\\', 'r']
  else if c.toNat < 32 then ['\\', 'u', '0', '0', hexChar (c.toNat / 16), hexChar (c.toNat % 16)]
  else [c]

/-- Escaped rendering of a string body. -/
def escapeList (cs : List Char) : List Char :=
  (cs.map escapeChar).flatten

/-- Rendering of a JSON string literal. -/
def renderString (s : String) : List Char :=
  '"' :: escapeList s.data ++ ['"']

/-- Decimal digits of a natural number (no leading zeros; `0` is "0"). -/
def natChars (n : Nat) : List Char :=
  if _ : n < 10 then [Char.ofNat (48 + n)]
  else natChars (n / 10) ++ [Char.ofNat (48 + n % 10)]

mutual

/-- Rendering of a JSON value as `JSON.stringify` prints it: no
whitespace, object keys in insertion order. -/
def renderJson : Json → List Char
  | Json.null => 'n' :: ['u', 'l', 'l']
  | Json.bool b => if b then 't' :: ['r', 'u', 'e'] else 'f' :: ['a', 'l', 's', 'e']
  | Json.num n => if n < 0 then '-' :: natChars n.natAbs else natChars n.natAbs
  | Json.str s => renderString s
  | Json.arr items => '[' :: renderItems items ++ [']']
  | Json.obj fields => '\x7b' :: renderFields fields ++ ['\x7d']

/-- Rendering of comma-separated array elements. -/
def renderItems : List Json → List Char
  | [] => []
  | [j] => renderJson j
  | j :: rest => renderJson j ++ ',' :: renderItems rest

/-- Rendering of comma-separated `"key":value` object members. -/
def renderFields : List (String × Json) → List Char
  | [] => []
  | [(k, v)] => renderString k ++ ':' :: renderJson v
  | (k, v) :: rest => renderString k ++ ':' :: renderJson v ++ ',' :: renderFields rest

end

/-- Value of a hexadecimal digit character, `none` for a non-digit. -/
def hexVal (c : Char) : Option Nat :=
  if '0' ≤ c ∧ c ≤ '9' then some (c.toNat - 48)
  else if 'a' ≤ c ∧ c ≤ 'f' then some (c.toNat - 87)
  else if 'A' ≤ c ∧ c ≤ 'F' then some (c.toNat - 55)
  else none

/-- Prepending of a character to the pending parsed string body. -/
def consChar (c : Char) : Option (List Char × List Char) → Option (List Char × List Char) :=
  Option.map fun p => (c :: p.1, p.2)

/-- Parse of a JSON string body up to and including the closing quote:
returns the decoded characters and the remaining input. Raw control
characters are rejected, escape sequences are decoded. -/
def parseStrChars (input : List Char) : Option (List Char × List Char) :=
  match input with
  | [] => none
  | c :: rest =>
    if c = '"' then some ([], rest)
    else if c = '\\' then
      match rest with
      | [] => none
      | e :: rest2 =>
        if e = '"' then consChar '"' (parseStrChars rest2)
        else if e = '\\' then consChar '\\' (parseStrChars rest2)
        else if e = '/' then consChar '/' (parseStrChars rest2)
        else if e = 'b' then consChar '\x08' (parseStrChars rest2)
        else if e = 'f' then consChar '\x0c' (parseStrChars rest2)
        else if e = 'n' then consChar '\x0a' (parseStrChars rest2)
        else if e = 'r' then consChar '\x0d' (parseStrChars rest2)
        else if e = 't' then consChar '\x09' (parseStrChars rest2)
        else if e = 'u' then
          match rest2 with
          | a :: b :: c2 :: d :: rest3 =>
            match hexVal a, hexVal b, hexVal c2, hexVal d with
            | some x1, some x2, some x3, some x4 =>
              consChar (Char.ofNat (((x1 * 16 + x2) * 16 + x3) * 16 + x4)) (parseStrChars rest3)
            | _, _, _, _ => none
          | _ => none
        else none
    else if c.toNat < 32 then none
    else consChar c (parseStrChars rest)

/-- Parse of a nonempty run of decimal digits into a natural number,
returning the remaining input. -/
def parseNatNum (input : List Char) : Option (Nat × List Char) :=
  let ds := input.takeWhile (·.isDigit)
  if ds.isEmpty then none
  else if ds.head? = some '0' && 1 < ds.length then none
  else some (ds.foldl (fun a c => a * 10 + (c.toNat - 48)) 0, input.dropWhile (·.isDigit))

mutual

/-- Parse of one JSON value. The fuel argument bounds the recursion
depth; `parseJson` supplies fuel that is ample for its input. -/
def parseVal : Nat → List Char → Option (Json × List Char)
  | 0, _ => none
  | _ + 1, [] => none
  | fuel + 1, c :: rest =>
    if c = 'n' then
      match rest with
      | 'u' :: 'l' :: 'l' :: r => some (.null, r)
      | _ => none
    else if c = 't' then
      match rest with
      | 'r' :: 'u' :: 'e' :: r => some (.bool true, r)
      | _ => none
    else if c = 'f' then
      match rest with
      | 'a' :: 'l' :: 's' :: 'e' :: r => some (.bool false, r)
      | _ => none
    else if c = '"' then
      (parseStrChars rest).map fun p => (.str (String.mk p.1), p.2)
    else if c = '[' then
      match rest with
      | ']' :: r => some (.arr [], r)
      | _ => (parseItems fuel rest).map fun p => (.arr p.1, p.2)
    else if c = '\x7b' then
      match rest with
      | '\x7d' :: r => some (.obj [], r)
      | _ => (parseFields fuel rest).map fun p => (.obj p.1, p.2)
    else if c = '-' then
      (parseNatNum rest).map fun p => (.num (-(p.1 : Int)), p.2)
    else if c.isDigit then
      (parseNatNum (c :: rest)).map fun p => (.num ((p.1 : Nat) : Int), p.2)
    else none

/-- Parse of the elements of a nonempty array, after the opening
bracket, up to and including the closing bracket. -/
def parseItems : Nat → List Char → Option (List Json × List Char)
  | 0, _ => none
  | fuel + 1, input =>
    match parseVal fuel input with
    | none => none
    | some (j, rest) =>
      match rest with
      | ',' :: rest2 => (parseItems fuel rest2).map fun p => (j :: p.1, p.2)
      | ']' :: rest2 => some ([j], rest2)
      | _ => none

/-- Parse of the members of a nonempty object, after the opening brace,
up to and including the closing brace. -/
def parseFields : Nat → List Char → Option (List (String × Json) × List Char)
  | 0, _ => none
  | fuel + 1, input =>
    match input with
    | '"' :: rest =>
      (match parseStrChars rest with
       | none => none
       | some (kcs, rest1) =>
         match rest1 with
         | ':' :: rest2 =>
           (match parseVal fuel rest2 with
            | none => none
            | some (v, rest3) =>
              match rest3 with
              | ',' :: rest4 => (parseFields fuel rest4).map fun p => ((String.mk kcs, v) :: p.1, p.2)
              | '\x7d' :: rest4 => some ([(String.mk kcs, v)], rest4)
              | _ => none)
         | _ => none)
    | _ => none

end

/-- Model of `JSON.parse`: the whole input must be consumed; a parse
error is `none` (the thrown SyntaxError). The supplied fuel, one more
than the input length, is ample: every recursion step consumes input. -/
def parseJson (s : String) : Option Json :=
  match parseVal (s.data.length + 1) s.data with
  | some (j, []) => some j
  | _ => none

/-- Members of the serialized todo object, as `JSON.stringify` sees the
object literal of `addTodo`: keys in declaration order `id, text,
completed, createdAt, dueDate, dueTime, notified`, with
`undefined`-valued (here: `none`) keys omitted from the output. -/
def todoFields (t : Todo) : List (String × Json) :=
  [("id", Json.str t.id), ("text", Json.str t.text),
   ("completed", Json.bool t.completed),
   ("createdAt", Json.num (t.createdAt : Int))]
    ++ (match t.dueDate with | some d => [("dueDate", Json.str d)] | none => [])
    ++ (match t.dueTime with | some tm => [("dueTime", Json.str tm)] | none => [])
    ++ (match t.notified with | some b => [("notified", Json.bool b)] | none => [])

/-- Encoding of one todo. -/
def encodeTodo (t : Todo) : Json :=
  Json.obj (todoFields t)

/-- Encoding of the whole collection: a JSON array. -/
def encodeTodos (ts : List Todo) : Json :=
  Json.arr (ts.map encodeTodo)

/-- Model of `localStorage.setItem(KEY, JSON.stringify(todos))`
(src/App.tsx:79-83): the serialized text written to the slot. -/
def save (todos : List Todo) : String :=
  String.mk (renderJson (encodeTodos todos))

/-- Lookup of an object member by key (first match; the application's
own output never contains duplicate keys). -/
def lookupField (fields : List (String × Json)) (k : String) : Option Json :=
  match fields with
  | [] => none
  | (k', v) :: rest => if k' = k then some v else lookupField rest k

/-- Reading of a mandatory string member. -/
def getStr (fields : List (String × Json)) (k : String) : String :=
  match lookupField fields k with
  | some (Json.str s) => s
  | _ => ""

/-- Reading of an optional string member: an absent key is `undefined`. -/
def getOptStr (fields : List (String × Json)) (k : String) : Option String :=
  match lookupField fields k with
  | some (Json.str s) => some s
  | _ => none

/-- Reading of a mandatory boolean member. -/
def getBool (fields : List (String × Json)) (k : String) : Bool :=
  match lookupField fields k with
  | some (Json.bool b) => b
  | _ => false

/-- Reading of an optional boolean member. -/
def getOptBool (fields : List (String × Json)) (k : String) : Option Bool :=
  match lookupField fields k with
  | some (Json.bool b) => some b
  | _ => none

/-- Reading of a mandatory numeric member. -/
def getNat (fields : List (String × Json)) (k : String) : Nat :=
  match lookupField fields k with
  | some (Json.num n) => n.toNat
  | _ => 0

/-- Typed reading of one parsed todo object. The code performs no
validation (`setTodos(JSON.parse(storedTodos))` trusts the shape), so
values outside the `Todo` shape — which never arise from `save` — are
read defensively with defaults. -/
def decodeTodo (j : Json) : Todo :=
  match j with
  | Json.obj fields =>
    { id := getStr fields "id"
      text := getStr fields "text"
      completed := getBool fields "completed"
      createdAt := getNat fields "createdAt"
      dueDate := getOptStr fields "dueDate"
      dueTime := getOptStr fields "dueTime"
      notified := getOptBool fields "notified" }
  | _ =>
    { id := "", text := "", completed := false, createdAt := 0,
      dueDate := none, dueTime := none, notified := none }

/-- Typed reading of the parsed collection. -/
def decodeTodos (j : Json) : List Todo :=
  match j with
  | Json.arr items => items.map decodeTodo
  | _ => []

/-- Model of the load effect (src/App.tsx:64-75) acting on the durable
slot: takes the slot's content (`none` when the key is absent) and
returns the slot after the load together with the loaded collection.
An absent or empty stored value leaves the initial empty collection; a
text that `JSON.parse` rejects is caught, the slot is removed
(`localStorage.removeItem`), and the collection stays empty. -/
def load (slot : Option String) : Option String × List Todo :=
  match slot with
  | none => (none, [])
  | some s =>
    if s.isEmpty then (some s, [])
    else
      match parseJson s with
      | some j => (some s, decodeTodos j)
      | none => (none, [])

/-!
Auxiliary definitions used by the verification below (batch form of the
scanner's queued updates, classification of input heads, scalar JSON
values).
-/

/-- Setting of the notified flag, the object spread of src/App.tsx:48. -/
def setNotifiedTrue (t : Todo) : Todo :=
  { t with notified := some true }

/-- Pointwise form of a batch of `markNotified` updates. -/
def markIf (ids : List String) (t : Todo) : Todo :=
  if t.id ∈ ids then setNotifiedTrue t else t

/-- Sequential application of the scan pass's queued `markNotified`
updates, in emission order. -/
def applyMarks (ids : List String) (l : List Todo) : List Todo :=
  ids.foldl (fun acc i => markNotified i acc) l

/-- Test that a character list does not start with a decimal digit, so
that a digit run just before it ends there. -/
def headNotDigit : List Char → Bool
  | [] => true
  | c :: _ => !c.isDigit

/-- Scalar JSON values with a canonical rendering accepted back by the
parser; all members of a serialized todo are of this shape. -/
def scalarOk : Json → Bool
  | Json.null => true
  | Json.bool _ => true
  | Json.num n => decide (0 ≤ n)
  | Json.str _ => true
  | Json.arr _ => false
  | Json.obj _ => false

/-- Example task used by the concrete witnesses below. -/
def exTodo : Todo :=
  { id := "a", text := "buy milk", completed := false,
    createdAt := 1700000000000,
    dueDate := some "2024-01-01", dueTime := some "09:00",
    notified := some false }

/-- Empty partial update used by the concrete witnesses below. -/
def exUpdateNone : TodoUpdatePayload :=
  { text := none, completed := none, dueDate := none, dueTime := none,
    notified := none }

/-- Example task with an unparseable due date, used by a witness. -/
def exTodoBadDue : Todo :=
  { exTodo with dueDate := some "tomorrow" }

/-- Local wall-clock milliseconds of 2024-01-01T09:00, the example
task's due-instant. -/
def exDueMs : Int :=
  1704099600000

/-- C3: for every `edit(id, partialUpdate)` call, every position of the
collection keeps its task's identifier and creation timestamp, and every
field absent from the partial update keeps its previous value; in
particular an update that does not mention `notified` never clears a
`notified = true` flag. -/
theorem editTodo_frame (id : String) (u : TodoUpdatePayload) (ts : List Todo) :
    (∀ i : Nat, (editTodo id u ts)[i]? =
      (ts[i]?).map fun t => if t.id == id then applyUpdate t u else t)
    ∧ (∀ t : Todo, (applyUpdate t u).id = t.id ∧ (applyUpdate t u).createdAt = t.createdAt)
    ∧ (∀ t : Todo, u.text = none → (applyUpdate t u).text = t.text)
    ∧ (∀ t : Todo, u.completed = none → (applyUpdate t u).completed = t.completed)
    ∧ (∀ t : Todo, u.dueDate = none → (applyUpdate t u).dueDate = t.dueDate)
    ∧ (∀ t : Todo, u.dueTime = none → (applyUpdate t u).dueTime = t.dueTime)
    ∧ (∀ t : Todo, u.notified = none → (applyUpdate t u).notified = t.notified)
    ∧ (∀ t : Todo, u.notified = none → t.notified = some true →
        (applyUpdate t u).notified = some true) := by
  refine ⟨fun i => ?_, fun t => ⟨rfl, rfl⟩, ?_, ?_, ?_, ?_, ?_, ?_⟩
  · simp [editTodo]
  · intro t h; simp [applyUpdate, h]
  · intro t h; simp [applyUpdate, h]
  · intro t h; simp [applyUpdate, h]
  · intro t h; simp [applyUpdate, h]
  · intro t h; simp [applyUpdate, h]
  · intro t h h2; simp [applyUpdate, h, h2]

/-- C6: the 'all' view returns every task in collection order; 'active'
exactly the tasks with completed=false and 'completed' exactly those
with completed=true, each preserving collection order; the two are
disjoint and their union as sets equals the 'all' view. -/
theorem filteredTodos_partition (ts : List Todo) :
    filteredTodos FilterType.all ts = ts
    ∧ (filteredTodos FilterType.active ts).Sublist ts
    ∧ (filteredTodos FilterType.completed ts).Sublist ts
    ∧ (∀ t : Todo, t ∈ filteredTodos FilterType.active ts ↔ t ∈ ts ∧ t.completed = false)
    ∧ (∀ t : Todo, t ∈ filteredTodos FilterType.completed ts ↔ t ∈ ts ∧ t.completed = true)
    ∧ (∀ t : Todo, t ∈ filteredTodos FilterType.active ts →
        t ∉ filteredTodos FilterType.completed ts)
    ∧ (∀ t : Todo, t ∈ filteredTodos FilterType.all ts ↔
        t ∈ filteredTodos FilterType.active ts ∨ t ∈ filteredTodos FilterType.completed ts) := by
  refine ⟨?_, ?_, ?_, ?_, ?_, ?_, ?_⟩
  · simp [filteredTodos]
  · exact List.filter_sublist ts
  · exact List.filter_sublist ts
  · intro t; simp [filteredTodos, List.mem_filter]
  · intro t; simp [filteredTodos, List.mem_filter]
  · intro t ht hc
    simp [filteredTodos, List.mem_filter] at ht hc
    exact absurd hc.2 (by simp [ht.2])
  · intro t
    cases hc : t.completed <;> simp [filteredTodos, List.mem_filter, hc]

/-- C7: `clearCompleted` removes exactly the tasks whose completed flag
is true and leaves every other task, in original relative order,
untouched. -/
theorem clearCompleted_spec (ts : List Todo) :
    (clearCompleted ts).Sublist ts
    ∧ (∀ t : Todo, t ∈ clearCompleted ts ↔ t ∈ ts ∧ t.completed = false) := by
  refine ⟨List.filter_sublist ts, ?_⟩
  intro t; simp [clearCompleted, List.mem_filter]

/-- C8: `create` produces a task with the fresh id, the creation
timestamp, completed=false, notified=false and the given text and due
fields, prepends it to the collection, leaves every existing task (in
particular its id and creation timestamp) unchanged at its shifted
position, and keeps ids unique when the fresh id is new. -/
theorem addTodo_spec (freshId : String) (now : Nat) (text : String)
    (dueDate dueTime : Option String) (ts : List Todo) :
    (addTodo freshId now text dueDate dueTime ts).length = ts.length + 1
    ∧ (addTodo freshId now text dueDate dueTime ts).head? = some
        { id := freshId, text := text, completed := false, createdAt := now,
          dueDate := dueDate, dueTime := dueTime, notified := some false }
    ∧ (∀ i : Nat, (addTodo freshId now text dueDate dueTime ts)[i + 1]? = ts[i]?)
    ∧ (freshId ∉ ts.map Todo.id → (ts.map Todo.id).Nodup →
        ((addTodo freshId now text dueDate dueTime ts).map Todo.id).Nodup) := by
  refine ⟨by simp [addTodo], rfl, fun i => by simp [addTodo], ?_⟩
  intro hfresh hnodup
  simp [addTodo, List.nodup_cons, hfresh, hnodup]

/-- C9: `toggle`, `delete` and `edit` aimed at an id no task of the
collection carries leave the collection unchanged. -/
theorem missing_id_noop (id : String) (u : TodoUpdatePayload) (ts : List Todo)
    (h : ∀ t ∈ ts, t.id ≠ id) :
    toggleTodo id ts = ts ∧ deleteTodo id ts = ts ∧ editTodo id u ts = ts := by
  refine ⟨?_, ?_, ?_⟩
  · rw [toggleTodo]
    have h2 : ∀ t ∈ ts,
        (if (t.id == id) = true then { t with completed := !t.completed } else t) = t := by
      intro t ht; simp [beq_eq_false_iff_ne.mpr (h t ht)]
    rw [List.map_congr_left h2, List.map_id']
  · rw [deleteTodo, List.filter_eq_self.mpr ?_]
    intro t ht
    simp [bne, h t ht]
  · rw [editTodo]
    have h2 : ∀ t ∈ ts,
        (if (t.id == id) = true then applyUpdate t u else t) = t := by
      intro t ht; simp [beq_eq_false_iff_ne.mpr (h t ht)]
    rw [List.map_congr_left h2, List.map_id']

/-- Witness for C9 at a concrete input: the example task's id "a" does
not match the targeted id "z", so all three mutations are no-ops. -/
theorem missing_id_noop_witness :
    toggleTodo "z" [exTodo] = [exTodo] ∧ deleteTodo "z" [exTodo] = [exTodo]
    ∧ editTodo "z" exUpdateNone [exTodo] = [exTodo] :=
  missing_id_noop "z" exUpdateNone [exTodo] (by decide)

/-!
Scan-pass lemmas: the `forEach` with queued by-id updates equals a
single pointwise rebuild of the collection.
-/

/-- Marking is idempotent and keeps the id, so a batch of queued by-id
marks acts pointwise. -/
theorem applyMarks_eq_markIf (ids : List String) (l : List Todo) :
    applyMarks ids l = l.map (markIf ids) := by
  induction ids generalizing l with
  | nil =>
    have hid : markIf [] = fun t => t := funext fun t => by simp [markIf]
    simp [applyMarks, hid]
  | cons i ids ih =>
    have step : ∀ t : Todo,
        markIf ids (if t.id == i then { t with notified := some true } else t)
          = markIf (i :: ids) t := by
      intro t
      by_cases hit : t.id = i
      · subst hit
        simp only [markIf, beq_self_eq_true, if_true, List.mem_cons, true_or, if_pos]
        split <;> rfl
      · simp [markIf, hit, beq_eq_false_iff_ne.mpr hit]
    calc applyMarks (i :: ids) l
        = applyMarks ids (markNotified i l) := rfl
      _ = (markNotified i l).map (markIf ids) := ih _
      _ = l.map (markIf (i :: ids)) := by
          rw [markNotified, List.map_map]
          exact List.map_congr_left fun t _ => step t

/-- Accumulator form of one `forEach` scan pass: alerts append in
collection order and the queued updates collect into `applyMarks`. -/
theorem checkAux_spec (now : Int) (ps : List Todo) (as : List String) (l : List Todo) :
    checkAux now ps (as, l)
      = (as ++ (ps.filter (shouldAlert now)).map Todo.text,
         applyMarks ((ps.filter (shouldAlert now)).map Todo.id) l) := by
  induction ps generalizing as l with
  | nil => simp [checkAux, applyMarks]
  | cons t ps ih =>
    rw [checkAux]
    cases hq : shouldAlert now t with
    | true =>
      simp only [if_pos rfl]
      rw [ih]
      simp [List.filter_cons, hq, applyMarks]
    | false =>
      rw [if_neg Bool.false_ne_true]
      rw [ih]
      simp [List.filter_cons, hq]

/-- One scan pass, under unique ids: the emitted alerts are the texts of
exactly the qualifying tasks in collection order, and the resulting
collection is the pointwise rebuild that marks exactly those tasks. -/
theorem checkNotifications_eq (now : Int) (ts : List Todo)
    (h : (ts.map Todo.id).Nodup) :
    checkNotifications now ts
      = ((ts.filter (shouldAlert now)).map Todo.text,
         ts.map fun t => if shouldAlert now t then setNotifiedTrue t else t) := by
  rw [checkNotifications, checkAux_spec, applyMarks_eq_markIf]
  simp only [List.nil_append]
  congr 1
  refine List.map_congr_left fun t ht => ?_
  by_cases hq : shouldAlert now t = true
  · have hmem : t.id ∈ (ts.filter (shouldAlert now)).map Todo.id :=
      List.mem_map_of_mem Todo.id (List.mem_filter.mpr ⟨ht, hq⟩)
    simp [markIf, hmem, hq]
  · have hmem : t.id ∉ (ts.filter (shouldAlert now)).map Todo.id := by
      intro hmem
      obtain ⟨u, hu, hid⟩ := List.mem_map.mp hmem
      obtain ⟨hu1, hu2⟩ := List.mem_filter.mp hu
      exact hq (List.inj_on_of_nodup_map h hu1 ht hid ▸ hu2)
    simp [markIf, hmem, hq]

/-- Successful parses come only from well-shaped date and time strings. -/
theorem parseDateTime_lengths (d tm : String) (due : Int)
    (h : parseDateTime d tm = some due) :
    d.data.length = 10 ∧ tm.data.length = 5 := by
  rw [parseDateTime] at h
  split at h
  · next heq1 heq2 => simp [heq1, heq2]
  · exact absurd h (by simp)

/-- Successfully parsed due strings are nonempty, hence truthy. -/
theorem parseDateTime_truthy (d tm : String) (due : Int)
    (h : parseDateTime d tm = some due) :
    d.isEmpty = false ∧ tm.isEmpty = false := by
  obtain ⟨hd, htm⟩ := parseDateTime_lengths d tm due h
  constructor
  · cases he : d.isEmpty
    · rfl
    · rw [String.isEmpty_iff] at he
      subst he
      simp at hd
  · cases he : tm.isEmpty
    · rfl
    · rw [String.isEmpty_iff] at he
      subst he
      simp at htm

/-- Unfolding of the scanner's per-task test into its conditions. -/
theorem shouldAlert_iff (now : Int) (t : Todo) :
    shouldAlert now t = true ↔
      ∃ d tm due, t.dueDate = some d ∧ t.dueTime = some tm ∧ t.completed = false
        ∧ t.notified ≠ some true ∧ parseDateTime d tm = some due ∧ due ≤ now := by
  constructor
  · intro h
    rw [shouldAlert] at h
    split at h
    case isTrue hguard =>
      obtain ⟨⟨⟨hdd, hdt⟩, hc⟩, hn⟩ := by
        simpa [Bool.and_eq_true] using hguard
      obtain ⟨d, hd⟩ : ∃ d, t.dueDate = some d := by
        cases hdd' : t.dueDate
        · rw [hdd'] at hdd; simp [strTruthy] at hdd
        · exact ⟨_, rfl⟩
      obtain ⟨tm, htm⟩ : ∃ tm, t.dueTime = some tm := by
        cases hdt' : t.dueTime
        · rw [hdt'] at hdt; simp [strTruthy] at hdt
        · exact ⟨_, rfl⟩
      rw [hd, htm] at h
      simp only [Option.getD_some] at h
      cases hp : parseDateTime d tm with
      | none => rw [hp] at h; simp at h
      | some due =>
        rw [hp] at h
        refine ⟨d, tm, due, hd, htm, by simpa using hc, ?_, hp, by simpa using h⟩
        intro hnt
        rw [notifiedTruthy, hnt] at hn
        simp at hn
    case isFalse => simp at h
  · rintro ⟨d, tm, due, hd, htm, hc, hn, hp, hle⟩
    obtain ⟨hde, htme⟩ := parseDateTime_truthy d tm due hp
    have hnb : notifiedTruthy t = false := by
      rw [notifiedTruthy]
      cases hno : t.notified with
      | none => rfl
      | some b =>
        cases b
        · rfl
        · exact absurd hno hn
    rw [shouldAlert]
    rw [if_pos (by simp [hd, htm, strTruthy, hde, htme, hc, hnb])]
    rw [hd, htm]
    simp only [Option.getD_some]
    rw [hp]
    simpa using hle

/-- Tasks missing a due date or a due time never pass the test. -/
theorem shouldAlert_of_missing (now : Int) (t : Todo)
    (h : t.dueDate = none ∨ t.dueTime = none) :
    shouldAlert now t = false := by
  rw [shouldAlert]
  rcases h with h | h <;>
    rw [if_neg (by simp [h, strTruthy])]

/-- Qualifying tasks produce a task marked notified in place. -/
theorem shouldAlert_marked_false (now : Int) (t : Todo) :
    shouldAlert now (setNotifiedTrue t) = false := by
  rw [shouldAlert]
  rw [if_neg]
  simp [setNotifiedTrue, notifiedTruthy]

/-- C1: in one scan pass at current time `now`, over a collection with
unique ids, an alert carrying a task's text is emitted and the task is
marked notified if and only if its due date and due time are both
present, it is not completed, not yet notified, and `now` is greater
than or equal to the due-instant obtained by combining the two in local
wall-clock time; a task missing either due field is never alerted. -/
theorem scan_alerts_exactly_due (now : Int) (ts : List Todo)
    (h : (ts.map Todo.id).Nodup) :
    checkNotifications now ts
      = ((ts.filter (shouldAlert now)).map Todo.text,
         ts.map fun t => if shouldAlert now t then { t with notified := some true } else t)
    ∧ (∀ t : Todo, shouldAlert now t = true ↔
        ∃ d tm due, t.dueDate = some d ∧ t.dueTime = some tm ∧ t.completed = false
          ∧ t.notified ≠ some true ∧ parseDateTime d tm = some due ∧ due ≤ now)
    ∧ (∀ t : Todo, t.dueDate = none ∨ t.dueTime = none → shouldAlert now t = false) :=
  ⟨checkNotifications_eq now ts h, fun t => shouldAlert_iff now t,
   fun t => shouldAlert_of_missing now t⟩

/-- Witness for C1 at a concrete input: the example task is due exactly
at the scanned time. -/
theorem scan_alerts_exactly_due_witness :
    checkNotifications exDueMs [exTodo]
      = (([exTodo].filter (shouldAlert exDueMs)).map Todo.text,
         [exTodo].map fun t => if shouldAlert exDueMs t then { t with notified := some true } else t)
    ∧ (∀ t : Todo, shouldAlert exDueMs t = true ↔
        ∃ d tm due, t.dueDate = some d ∧ t.dueTime = some tm ∧ t.completed = false
          ∧ t.notified ≠ some true ∧ parseDateTime d tm = some due ∧ due ≤ exDueMs)
    ∧ (∀ t : Todo, t.dueDate = none ∨ t.dueTime = none → shouldAlert exDueMs t = false) :=
  scan_alerts_exactly_due exDueMs [exTodo] (by decide)

/-- C2: across scan passes, a task qualifying at the first pass is
alerted there exactly once (its text appears in that pass's alert list,
built one entry per qualifying task), comes out marked notified, and a
second pass at any time emits no alert for it and leaves it unchanged. -/
theorem scan_at_most_once (now₁ now₂ : Int) (ts : List Todo) (i : Nat)
    (h : (ts.map Todo.id).Nodup) (hi : i < ts.length)
    (hq : shouldAlert now₁ ts[i] = true) :
    (checkNotifications now₁ ts).1 = (ts.filter (shouldAlert now₁)).map Todo.text
    ∧ Todo.text ts[i] ∈ (checkNotifications now₁ ts).1
    ∧ (checkNotifications now₁ ts).2[i]? = some { ts[i] with notified := some true }
    ∧ shouldAlert now₂ { ts[i] with notified := some true } = false
    ∧ (checkNotifications now₂ (checkNotifications now₁ ts).2).1
        = ((checkNotifications now₁ ts).2.filter (shouldAlert now₂)).map Todo.text
    ∧ { ts[i] with notified := some true } ∉
        (checkNotifications now₁ ts).2.filter (shouldAlert now₂)
    ∧ (checkNotifications now₂ (checkNotifications now₁ ts).2).2[i]?
        = some { ts[i] with notified := some true } := by
  have h1 := checkNotifications_eq now₁ ts h
  have hids : (checkNotifications now₁ ts).2.map Todo.id = ts.map Todo.id := by
    rw [h1, List.map_map]
    refine List.map_congr_left fun t _ => ?_
    by_cases hq' : shouldAlert now₁ t = true <;>
      simp [hq', setNotifiedTrue, Function.comp]
  have hnodup2 : ((checkNotifications now₁ ts).2.map Todo.id).Nodup := by
    rw [hids]; exact h
  have h2 := checkNotifications_eq now₂ (checkNotifications now₁ ts).2 hnodup2
  have hmarked : (checkNotifications now₁ ts).2[i]?
      = some { ts[i] with notified := some true } := by
    rw [h1]
    simp [List.getElem?_map, List.getElem?_eq_getElem hi, hq, setNotifiedTrue]
  have hfalse : shouldAlert now₂ { ts[i] with notified := some true } = false :=
    shouldAlert_marked_false now₂ ts[i]
  refine ⟨by rw [h1], ?_, hmarked, hfalse, by rw [h2], ?_, ?_⟩
  · rw [h1]
    exact List.mem_map_of_mem Todo.text
      (List.mem_filter.mpr ⟨List.getElem_mem hi, hq⟩)
  · intro hmem
    have hsa := (List.mem_filter.mp hmem).2
    rw [hfalse] at hsa
    exact absurd hsa (by simp)
  · rw [h2]
    simp only [List.getElem?_map, hmarked, Option.map_some']
    rw [if_neg]
    rw [hfalse]
    simp

/-- Witness for C2 at a concrete input: the example task, due exactly at
the scanned time, is alerted in the first pass and never again. -/
theorem scan_at_most_once_witness :
    (checkNotifications exDueMs [exTodo]).1
        = ([exTodo].filter (shouldAlert exDueMs)).map Todo.text
    ∧ Todo.text exTodo ∈ (checkNotifications exDueMs [exTodo]).1
    ∧ (checkNotifications exDueMs [exTodo]).2[0]? = some { exTodo with notified := some true }
    ∧ shouldAlert exDueMs { exTodo with notified := some true } = false
    ∧ (checkNotifications exDueMs (checkNotifications exDueMs [exTodo]).2).1
        = ((checkNotifications exDueMs [exTodo]).2.filter (shouldAlert exDueMs)).map Todo.text
    ∧ { exTodo with notified := some true } ∉
        (checkNotifications exDueMs [exTodo]).2.filter (shouldAlert exDueMs)
    ∧ (checkNotifications exDueMs (checkNotifications exDueMs [exTodo]).2).2[0]?
        = some { exTodo with notified := some true } :=
  scan_at_most_once exDueMs exDueMs [exTodo] 0 (by decide) (by decide) (by decide)

/-- C10: a scan pass is total, and a task whose due date and due time
strings do not combine into a parseable instant behaves exactly like one
whose due-instant has not arrived: the comparison against the current
time is false, no alert is emitted, and the task is left unmarked. -/
theorem scan_unparseable_no_alert (now : Int) (t : Todo) (d tm : String)
    (hd : t.dueDate = some d) (htm : t.dueTime = some tm)
    (hp : parseDateTime d tm = none) :
    shouldAlert now t = false ∧ checkNotifications now [t] = ([], [t]) := by
  have hsa : shouldAlert now t = false := by
    rw [shouldAlert]
    split
    · rw [hd, htm]
      simp only [Option.getD_some]
      rw [hp]
    · rfl
  exact ⟨hsa, by simp [checkNotifications, checkAux, hsa]⟩

/-- Witness for C10 at a concrete input: a task whose due date reads
"tomorrow" is never alerted. -/
theorem scan_unparseable_no_alert_witness :
    shouldAlert 0 exTodoBadDue = false
    ∧ checkNotifications 0 [exTodoBadDue] = ([], [exTodoBadDue]) :=
  scan_unparseable_no_alert 0 exTodoBadDue "tomorrow" "09:00" rfl rfl (by decide)

/-!
Round-trip of the persistence layer: what `save` writes, `parseJson`
reads back.
-/

/-- Hexadecimal digits render and read back to the same value. -/
theorem hexVal_hexChar (n : Nat) (h : n < 16) : hexVal (hexChar n) = some n := by
  interval_cases n <;> decide

/-- Rebuilding a string from its own character data. -/
theorem stringMk_data (s : String) : String.mk s.data = s := by
  cases s
  rfl

/-- Escaped string bodies parse back to the original characters. -/
theorem parseStrChars_escape (cs rest : List Char) :
    parseStrChars (escapeList cs ++ '"' :: rest) = some (cs, rest) := by
  induction cs with
  | nil =>
    simp only [escapeList, List.map_nil, List.flatten_nil, List.nil_append]
    rw [parseStrChars.eq_def]
    simp
  | cons c cs ih =>
    have hstep : escapeList (c :: cs) = escapeChar c ++ escapeList cs := by
      simp [escapeList]
    rw [hstep, List.append_assoc, escapeChar]
    split_ifs with h1 h2 h3 h4 h5 h6 h7 h8
    · subst h1; rw [parseStrChars.eq_def]; simp [consChar, ih]
    · subst h2; rw [parseStrChars.eq_def]; simp [consChar, ih]
    · subst h3; rw [parseStrChars.eq_def]; simp [consChar, ih]
    · subst h4; rw [parseStrChars.eq_def]; simp [consChar, ih]
    · subst h5; rw [parseStrChars.eq_def]; simp [consChar, ih]
    · subst h6; rw [parseStrChars.eq_def]; simp [consChar, ih]
    · subst h7; rw [parseStrChars.eq_def]; simp [consChar, ih]
    · have hdiv : c.toNat / 16 < 16 := by omega
      have hmod : c.toNat % 16 < 16 := by omega
      have hval : ((0 * 16 + 0) * 16 + c.toNat / 16) * 16 + c.toNat % 16 = c.toNat := by
        omega
      have h0 : hexVal '0' = some 0 := by decide
      rw [parseStrChars.eq_def]
      simp [h0, hexVal_hexChar _ hdiv, hexVal_hexChar _ hmod, consChar, ih]
      rw [show c.toNat / 16 * 16 + c.toNat % 16 = c.toNat from by omega]
      exact Char.ofNat_toNat c
    · rw [parseStrChars.eq_def]
      simp [h1, h2, h8, consChar, ih]

/-- JSON string literals parse back to the original string. -/
theorem parseVal_renderString (fuel : Nat) (s : String) (rest : List Char) :
    parseVal (fuel + 1) (renderString s ++ rest) = some (Json.str s, rest) := by
  rw [renderString]
  simp only [List.cons_append, List.append_assoc, List.singleton_append]
  simp [parseVal, parseStrChars_escape, stringMk_data]


/-- Character value of a decimal digit. -/
theorem toNat_ofNat_digit (k : Nat) (h : k < 10) : (Char.ofNat (48 + k)).toNat = 48 + k := by
  interval_cases k <;> decide

/-- Decimal digit characters are digits. -/
theorem isDigit_ofNat_digit (k : Nat) (h : k < 10) : (Char.ofNat (48 + k)).isDigit = true := by
  interval_cases k <;> decide

/-- Nonzero decimal digits are not the zero character. -/
theorem ofNat_digit_ne_zero (k : Nat) (h1 : 1 ≤ k) (h2 : k < 10) :
    Char.ofNat (48 + k) ≠ '0' := by
  interval_cases k <;> decide

/-- Decimal renderings consist of digit characters. -/
theorem natChars_digits (n : Nat) : ∀ c ∈ natChars n, c.isDigit = true := by
  induction n using Nat.strong_induction_on with
  | _ n ih =>
    rw [natChars]
    split
    · next h =>
      intro c hc
      simp only [List.mem_singleton] at hc
      subst hc
      exact isDigit_ofNat_digit n h
    · next h =>
      intro c hc
      rcases List.mem_append.mp hc with hc | hc
      · exact ih (n / 10) (by omega) c hc
      · simp only [List.mem_singleton] at hc
        subst hc
        exact isDigit_ofNat_digit (n % 10) (by omega)

/-- Decimal renderings are nonempty. -/
theorem natChars_ne_nil (n : Nat) : natChars n ≠ [] := by
  rw [natChars]
  split
  · simp
  · simp

/-- Decimal renderings of nonzero numbers have no leading zero. -/
theorem natChars_head_ne_zero (n : Nat) (hn : n ≠ 0) (c : Char)
    (h : (natChars n).head? = some c) : c ≠ '0' := by
  induction n using Nat.strong_induction_on with
  | _ n ih =>
    rw [natChars] at h
    split at h
    · next hl =>
      simp only [List.head?_cons] at h
      obtain rfl : Char.ofNat (48 + n) = c := by injection h
      exact ofNat_digit_ne_zero n (by omega) hl
    · next hl =>
      obtain ⟨c0, l0, h0⟩ := List.exists_cons_of_ne_nil (natChars_ne_nil (n / 10))
      rw [h0] at h
      simp only [List.cons_append, List.head?_cons] at h
      obtain rfl : c0 = c := by injection h
      exact ih (n / 10) (by omega) (by omega) (by rw [h0]; rfl)

/-- Never does a decimal rendering trip the leading-zero rejection. -/
theorem natChars_no_leading_zero (n : Nat) :
    (decide ((natChars n).head? = some '0') && decide (1 < (natChars n).length)) = false := by
  by_cases hz : (natChars n).head? = some '0'
  · rcases Nat.eq_zero_or_pos n with rfl | hpos
    · rw [show natChars 0 = ['0'] from by rw [natChars]; rfl]
      simp
    · exact absurd rfl (natChars_head_ne_zero n (by omega) '0' hz)
  · simp [hz]

/-- Folding the digit characters back recovers the number. -/
theorem natChars_foldl (n : Nat) :
    ∀ a : Nat, (natChars n).foldl (fun acc c => acc * 10 + (c.toNat - 48)) a
      = a * 10 ^ (natChars n).length + n := by
  induction n using Nat.strong_induction_on with
  | _ n ih =>
    intro a
    rw [natChars]
    split
    · next h =>
      simp only [List.foldl_cons, List.foldl_nil, List.length_singleton, pow_one]
      rw [toNat_ofNat_digit n h]
      omega
    · next h =>
      rw [List.foldl_append, List.length_append, ih (n / 10) (by omega) a]
      simp only [List.foldl_cons, List.foldl_nil, List.length_singleton]
      rw [toNat_ofNat_digit (n % 10) (by omega)]
      rw [pow_succ, ← mul_assoc]
      generalize a * 10 ^ (natChars (n / 10)).length = y
      omega

/-- Taking while a predicate holds skips a wholly-satisfying prefix. -/
theorem takeWhile_append_all {α : Type} (p : α → Bool) (l1 l2 : List α)
    (h : ∀ c ∈ l1, p c = true) :
    (l1 ++ l2).takeWhile p = l1 ++ l2.takeWhile p := by
  induction l1 with
  | nil => simp
  | cons a l ih =>
    have ha : p a = true := h a (List.mem_cons_self a l)
    simp only [List.cons_append, List.takeWhile_cons, ha, if_true]
    rw [ih fun c hc => h c (List.mem_cons_of_mem a hc)]

/-- Dropping while a predicate holds crosses a wholly-satisfying prefix. -/
theorem dropWhile_append_all {α : Type} (p : α → Bool) (l1 l2 : List α)
    (h : ∀ c ∈ l1, p c = true) :
    (l1 ++ l2).dropWhile p = l2.dropWhile p := by
  induction l1 with
  | nil => simp
  | cons a l ih =>
    have ha : p a = true := h a (List.mem_cons_self a l)
    simp only [List.cons_append, List.dropWhile_cons, ha, if_true]
    exact ih fun c hc => h c (List.mem_cons_of_mem a hc)

/-- Nothing is taken from a list whose head fails the predicate. -/
theorem takeWhile_headNot (p : Char → Bool) (l : List Char)
    (h : ∀ c ∈ l.head?, p c = false) : l.takeWhile p = [] := by
  cases l with
  | nil => rfl
  | cons a l =>
    have := h a rfl
    simp [List.takeWhile_cons, this]

/-- Nothing is dropped from a list whose head fails the predicate. -/
theorem dropWhile_headNot (p : Char → Bool) (l : List Char)
    (h : ∀ c ∈ l.head?, p c = false) : l.dropWhile p = l := by
  cases l with
  | nil => rfl
  | cons a l =>
    have := h a rfl
    simp [List.dropWhile_cons, this]

/-- Digit runs not followed by another digit parse back to the number. -/
theorem parseNatNum_natChars (n : Nat) (rest : List Char)
    (h : headNotDigit rest = true) :
    parseNatNum (natChars n ++ rest) = some (n, rest) := by
  have hdig := natChars_digits n
  have hrest : ∀ c ∈ rest.head?, c.isDigit = false := by
    intro c hc
    cases rest with
    | nil => simp at hc
    | cons r rs =>
      simp only [List.head?_cons, Option.mem_def, Option.some.injEq] at hc
      subst hc
      rw [headNotDigit] at h
      simpa using h
  have htake : (natChars n ++ rest).takeWhile (fun c => c.isDigit) = natChars n := by
    rw [takeWhile_append_all _ _ _ hdig, takeWhile_headNot _ _ hrest, List.append_nil]
  have hdrop : (natChars n ++ rest).dropWhile (fun c => c.isDigit) = rest := by
    rw [dropWhile_append_all _ _ _ hdig, dropWhile_headNot _ _ hrest]
  have hemp : (natChars n).isEmpty = false := by
    obtain ⟨c0, l0, h0⟩ := List.exists_cons_of_ne_nil (natChars_ne_nil n)
    rw [h0]; rfl
  rw [parseNatNum]
  simp only [htake, hdrop, hemp]
  rw [if_neg (by simp)]
  rw [if_neg (by rw [natChars_no_leading_zero n]; simp)]
  rw [natChars_foldl n 0]
  simp

/-- Digits are disjoint from every other leading character the value
parser distinguishes. -/
theorem isDigit_not_keyword (c : Char) (h : c.isDigit = true) :
    c ≠ 'n' ∧ c ≠ 't' ∧ c ≠ 'f' ∧ c ≠ '"' ∧ c ≠ '[' ∧ c ≠ '\x7b' ∧ c ≠ '-' := by
  refine ⟨?_, ?_, ?_, ?_, ?_, ?_, ?_⟩ <;> (rintro rfl; exact absurd h (by decide))

/-- Canonical null parses back. -/
theorem parseVal_null (fuel : Nat) (rest : List Char) :
    parseVal (fuel + 1) (renderJson Json.null ++ rest) = some (Json.null, rest) := by
  simp [renderJson, parseVal]

/-- Canonical booleans parse back. -/
theorem parseVal_bool (fuel : Nat) (b : Bool) (rest : List Char) :
    parseVal (fuel + 1) (renderJson (Json.bool b) ++ rest) = some (Json.bool b, rest) := by
  cases b <;> simp [renderJson, parseVal]

/-- Canonical renderings of natural numbers parse back, provided no
digit follows. -/
theorem parseVal_natNum (fuel : Nat) (m : Nat) (rest : List Char)
    (h : headNotDigit rest = true) :
    parseVal (fuel + 1) (renderJson (Json.num (m : Int)) ++ rest)
      = some (Json.num (m : Int), rest) := by
  have hrender : renderJson (Json.num (m : Int)) = natChars m := by
    rw [renderJson]
    rw [if_neg (by simp)]
    rw [Int.natAbs_ofNat]
  rw [hrender]
  obtain ⟨c0, l0, h0⟩ := List.exists_cons_of_ne_nil (natChars_ne_nil m)
  have hc0 : c0.isDigit = true := natChars_digits m c0 (by rw [h0]; exact List.mem_cons_self c0 l0)
  obtain ⟨hn, ht, hf, hq, hb, hob, hm⟩ := isDigit_not_keyword c0 hc0
  rw [h0]
  simp only [List.cons_append]
  simp only [parseVal, hn, ht, hf, hq, hb, hob, hm, hc0, if_neg, if_pos, if_false,
    if_true, reduceIte]
  rw [show c0 :: (l0 ++ rest) = (c0 :: l0) ++ rest from rfl, ← h0]
  rw [parseNatNum_natChars m rest h]
  rfl

/-- Canonical renderings of scalar values parse back, provided no digit
follows. -/
theorem parseVal_renderScalar (fuel : Nat) (j : Json) (hj : scalarOk j = true)
    (rest : List Char) (h : headNotDigit rest = true) :
    parseVal (fuel + 1) (renderJson j ++ rest) = some (j, rest) := by
  cases j with
  | null => exact parseVal_null fuel rest
  | bool b => exact parseVal_bool fuel b rest
  | num n =>
    have hn : 0 ≤ n := by simpa [scalarOk] using hj
    obtain ⟨m, rfl⟩ : ∃ m : Nat, n = (m : Int) := ⟨n.toNat, (Int.toNat_of_nonneg hn).symm⟩
    exact parseVal_natNum fuel m rest h
  | str s => exact parseVal_renderString fuel s rest
  | arr items => simp [scalarOk] at hj
  | obj fields => simp [scalarOk] at hj

/-- Nonempty member lists of scalar values parse back through the
closing brace, given fuel beyond the member count. -/
theorem parseFields_scalars (fields : List (String × Json)) :
    ∀ fuel rest, fields.length + 1 ≤ fuel →
      (∀ kv ∈ fields, scalarOk kv.2 = true) → fields ≠ [] →
      parseFields fuel (renderFields fields ++ '\x7d' :: rest) = some (fields, rest) := by
  induction fields with
  | nil => intro fuel rest _ _ hne; exact absurd rfl hne
  | cons kv fs ih =>
    intro fuel rest hfuel hsc _
    obtain ⟨k, v⟩ := kv
    simp only [List.length_cons] at hfuel
    obtain ⟨f1, rfl⟩ : ∃ f1, fuel = f1 + 1 := ⟨fuel - 1, by omega⟩
    obtain ⟨f2, rfl⟩ : ∃ f2, f1 = f2 + 1 := ⟨f1 - 1, by omega⟩
    have hv : scalarOk v = true := hsc (k, v) (List.mem_cons_self _ _)
    cases fs with
    | nil =>
      have hstr := parseStrChars_escape k.data (':' :: (renderJson v ++ '\x7d' :: rest))
      have hval := parseVal_renderScalar f2 v hv ('\x7d' :: rest) (by rfl)
      rw [show renderFields [(k, v)] = renderString k ++ ':' :: renderJson v from by
        simp [renderFields]]
      rw [renderString]
      simp only [List.cons_append, List.append_assoc, List.singleton_append]
      simp [parseFields, hstr, hval, stringMk_data]
    | cons kv2 fs2 =>
      have hstr := parseStrChars_escape k.data
        (':' :: (renderJson v ++ ',' :: (renderFields (kv2 :: fs2) ++ '\x7d' :: rest)))
      have hval := parseVal_renderScalar f2 v hv
        (',' :: (renderFields (kv2 :: fs2) ++ '\x7d' :: rest)) (by rfl)
      have hnext := ih (f2 + 1) rest
        (by simp only [List.length_cons] at hfuel ⊢; omega)
        (fun kv hkv => hsc kv (List.mem_cons_of_mem _ hkv)) (by simp)
      rw [show renderFields ((k, v) :: kv2 :: fs2)
          = renderString k ++ ':' :: renderJson v ++ ',' :: renderFields (kv2 :: fs2) from by
        simp [renderFields]]
      rw [renderString]
      simp only [List.cons_append, List.append_assoc, List.singleton_append]
      rw [parseFields]
      simp [hstr, hval, hnext, stringMk_data]

/-- Serialized todo objects have at most seven members. -/
theorem todoFields_length (t : Todo) : (todoFields t).length ≤ 7 := by
  obtain ⟨tid, ttext, tcomp, tcreated, tdd, tdt, tn⟩ := t
  rw [todoFields]
  rcases tdd with _ | d <;> rcases tdt with _ | tm <;> rcases tn with _ | b <;> simp

/-- Serialized todo objects have at least one member. -/
theorem todoFields_ne_nil (t : Todo) : todoFields t ≠ [] := by
  rw [todoFields]
  simp

/-- Every member of a serialized todo object is a scalar. -/
theorem todoFields_scalar (t : Todo) : ∀ kv ∈ todoFields t, scalarOk kv.2 = true := by
  obtain ⟨tid, ttext, tcomp, tcreated, tdd, tdt, tn⟩ := t
  intro kv hkv
  rw [todoFields] at hkv
  rcases tdd with _ | d <;> rcases tdt with _ | tm <;> rcases tn with _ | b <;>
    simp at hkv <;>
    rcases hkv with rfl | rfl | rfl | rfl | rfl | rfl | rfl <;>
    simp [scalarOk]

/-- Rendered member lists of a serialized todo begin with a quote. -/
theorem renderFields_todo_head (t : Todo) :
    ∃ tl, renderFields (todoFields t) = '"' :: tl := by
  rw [todoFields]
  simp only [List.cons_append]
  rw [show ∀ (a b : String × Json) (L : List (String × Json)),
      renderFields (a :: b :: L)
        = renderString a.1 ++ ':' :: renderJson a.2 ++ ',' :: renderFields (b :: L) from
    fun a b L => by rcases a with ⟨k, v⟩; simp [renderFields]]
  rw [renderString]
  exact ⟨_, rfl⟩

/-- Serialized todo objects parse back whole, given fuel of at least 8. -/
theorem parseVal_renderTodo (fuel : Nat) (t : Todo) (rest : List Char)
    (hfuel : 8 ≤ fuel) :
    parseVal (fuel + 1) (renderJson (encodeTodo t) ++ rest) = some (encodeTodo t, rest) := by
  obtain ⟨tl, htl⟩ := renderFields_todo_head t
  have hfields := parseFields_scalars (todoFields t) fuel rest
    (by have := todoFields_length t; omega) (todoFields_scalar t) (todoFields_ne_nil t)
  have hfields' : parseFields fuel ('"' :: (tl ++ '\x7d' :: rest))
      = some (todoFields t, rest) := by
    rw [htl] at hfields
    simpa [List.cons_append] using hfields
  rw [encodeTodo]
  rw [show renderJson (Json.obj (todoFields t))
      = '\x7b' :: (renderFields (todoFields t) ++ ['\x7d']) from by simp [renderJson]]
  rw [htl]
  simp only [List.cons_append, List.append_assoc, List.singleton_append]
  simp [parseVal, hfields']

/-- Lists of serialized todos parse back through the closing bracket,
given fuel beyond the count plus the per-object need. -/
theorem parseItems_todos (l : List Todo) :
    ∀ fuel rest, l.length + 9 ≤ fuel → l ≠ [] →
      parseItems fuel (renderItems (l.map encodeTodo) ++ ']' :: rest)
        = some (l.map encodeTodo, rest) := by
  induction l with
  | nil => intro fuel rest _ hne; exact absurd rfl hne
  | cons t l ih =>
    intro fuel rest hfuel _
    simp only [List.length_cons] at hfuel
    obtain ⟨f1, rfl⟩ : ∃ f1, fuel = f1 + 1 := ⟨fuel - 1, by omega⟩
    obtain ⟨f2, rfl⟩ : ∃ f2, f1 = f2 + 1 := ⟨f1 - 1, by omega⟩
    cases l with
    | nil =>
      have hval := parseVal_renderTodo f2 t (']' :: rest) (by omega)
      rw [show renderItems ([t].map encodeTodo) = renderJson (encodeTodo t) from by
        simp [renderItems]]
      rw [parseItems]
      simp [hval]
    | cons t2 l2 =>
      have hval := parseVal_renderTodo f2 t
        (',' :: (renderItems ((t2 :: l2).map encodeTodo) ++ ']' :: rest)) (by omega)
      have hnext := ih (f2 + 1) rest
        (by simp only [List.length_cons] at hfuel ⊢; omega) (by simp)
      rw [show renderItems ((t :: t2 :: l2).map encodeTodo)
          = renderJson (encodeTodo t) ++ ',' :: renderItems ((t2 :: l2).map encodeTodo) from by
        simp [renderItems]]
      simp only [List.append_assoc, List.cons_append]
      simp only [List.map_cons] at hval hnext
      rw [parseItems]
      simp [hval, hnext]

/-- String literals render to at least the two quotes. -/
theorem renderString_len (s : String) : 2 ≤ (renderString s).length := by
  rw [renderString]
  simp

/-- Member lists of two or more entries render with the full first
entry in front. -/
theorem renderFields_cons_cons_len (a b : String × Json) (L : List (String × Json)) :
    (renderFields (a :: b :: L)).length
      = (renderString a.1).length + 1 + (renderJson a.2).length
        + 1 + (renderFields (b :: L)).length := by
  rcases a with ⟨k, v⟩
  rw [show renderFields ((k, v) :: b :: L)
      = renderString k ++ ':' :: renderJson v ++ ',' :: renderFields (b :: L) from by
    simp [renderFields]]
  simp
  omega

/-- Serialized todos render to at least nine characters. -/
theorem renderTodo_len (t : Todo) : 9 ≤ (renderJson (encodeTodo t)).length := by
  have hshape : ∃ L, todoFields t
      = ("id", Json.str t.id) :: ("text", Json.str t.text) :: L := by
    rw [todoFields]
    exact ⟨_, rfl⟩
  obtain ⟨L, hb⟩ := hshape
  rw [encodeTodo]
  rw [show renderJson (Json.obj (todoFields t))
      = '\x7b' :: (renderFields (todoFields t) ++ ['\x7d']) from by simp [renderJson]]
  rw [hb]
  simp only [List.length_cons, List.length_append, List.length_singleton]
  rw [renderFields_cons_cons_len]
  have h4 : (renderString "id").length = 4 := by decide
  have h2 : 2 ≤ (renderString t.id).length := renderString_len t.id
  have hstr : renderJson (Json.str t.id) = renderString t.id := by simp [renderJson]
  simp only [hstr, h4]
  omega

/-- Rendered nonempty todo arrays are long enough to cover the fuel the
item parser needs. -/
theorem renderItems_todos_len (l : List Todo) (h : l ≠ []) :
    10 * l.length ≤ (renderItems (l.map encodeTodo)).length + 1 := by
  induction l with
  | nil => exact absurd rfl h
  | cons t l ih =>
    cases l with
    | nil =>
      rw [show renderItems ([t].map encodeTodo) = renderJson (encodeTodo t) from by
        simp [renderItems]]
      have := renderTodo_len t
      simp only [List.length_singleton]
      omega
    | cons t2 l2 =>
      rw [show renderItems ((t :: t2 :: l2).map encodeTodo)
          = renderJson (encodeTodo t) ++ ',' :: renderItems ((t2 :: l2).map encodeTodo) from by
        simp [renderItems]]
      have h1 := renderTodo_len t
      have h2 := ih (by simp)
      simp only [List.length_append, List.length_cons, List.length_map] at h2 ⊢
      omega

/-- Rendered nonempty todo arrays begin with the first object's brace. -/
theorem renderItems_todo_head (t : Todo) (l : List Todo) :
    ∃ tl, renderItems ((t :: l).map encodeTodo) = '\x7b' :: tl := by
  have hobj : renderJson (encodeTodo t)
      = '\x7b' :: (renderFields (todoFields t) ++ ['\x7d']) := by
    rw [encodeTodo]
    simp [renderJson]
  cases l with
  | nil =>
    rw [show renderItems ([t].map encodeTodo) = renderJson (encodeTodo t) from by
      simp [renderItems]]
    exact ⟨_, hobj⟩
  | cons t2 l2 =>
    rw [show renderItems ((t :: t2 :: l2).map encodeTodo)
        = renderJson (encodeTodo t) ++ ',' :: renderItems ((t2 :: l2).map encodeTodo) from by
      simp [renderItems]]
    rw [hobj]
    exact ⟨_, rfl⟩

/-- What `save` writes, `JSON.parse` reads back as the encoded value:
the supplied fuel, one more than the text length, is ample. -/
theorem parseJson_save (ts : List Todo) : parseJson (save ts) = some (encodeTodos ts) := by
  rw [save, parseJson]
  rw [show (String.mk (renderJson (encodeTodos ts))).data = renderJson (encodeTodos ts) from rfl]
  cases ts with
  | nil =>
    rw [show renderJson (encodeTodos []) = ['[', ']'] from by
      simp [encodeTodos, renderJson, renderItems]]
    rfl
  | cons t l =>
    have hrender : renderJson (encodeTodos (t :: l))
        = '[' :: (renderItems ((t :: l).map encodeTodo) ++ [']']) := by
      simp [encodeTodos, renderJson]
    have hlen : (t :: l).length + 9 ≤ (renderJson (encodeTodos (t :: l))).length := by
      rw [hrender]
      have h10 := renderItems_todos_len (t :: l) (by simp)
      simp only [List.length_cons, List.length_append, List.length_singleton,
        List.length_map] at h10 ⊢
      omega
    obtain ⟨tl2, htl2⟩ := renderItems_todo_head t l
    have hitems := parseItems_todos (t :: l) (renderJson (encodeTodos (t :: l))).length []
      (by omega) (by simp)
    have hitems' : parseItems (renderJson (encodeTodos (t :: l))).length
        ('\x7b' :: (tl2 ++ ']' :: []))
        = some ((t :: l).map encodeTodo, []) := by
      rw [htl2] at hitems
      simpa [List.cons_append] using hitems
    conv_lhs => rw [hrender]
    rw [parseVal]
    · have hfuel_eq : (renderJson (encodeTodos (t :: l))).length
          = tl2.length + 1 + 1 + 1 := by
        rw [hrender, htl2]
        simp
      rw [hfuel_eq] at hitems'
      rw [htl2]
      simp only [List.cons_append, List.append_assoc, List.singleton_append]
      simp [hitems', encodeTodos]
    all_goals
      intro r hr
      rw [htl2] at hr
      simp at hr

/-- Reading back one encoded todo recovers it field by field. -/
theorem decodeTodo_encodeTodo (t : Todo) : decodeTodo (encodeTodo t) = t := by
  obtain ⟨tid, ttext, tcomp, tcreated, tdd, tdt, tn⟩ := t
  rw [encodeTodo, todoFields]
  rcases tdd with _ | d <;> rcases tdt with _ | tm <;> rcases tn with _ | b <;>
    simp [decodeTodo, getStr, getOptStr, getBool, getOptBool, getNat, lookupField]

/-- Reading back the encoded collection recovers it. -/
theorem decodeTodos_encodeTodos (ts : List Todo) : decodeTodos (encodeTodos ts) = ts := by
  rw [encodeTodos, decodeTodos, List.map_map]
  simp only [Function.comp_def]
  rw [List.map_congr_left fun t _ => decodeTodo_encodeTodo t]
  exact List.map_id' ts

/-- C4: serializing any collection with save and reading it back with
load yields a collection identical to the original, with the stored
text left in place. -/
theorem save_load_roundtrip (ts : List Todo) :
    load (some (save ts)) = (some (save ts), ts) := by
  have hemp : (save ts).isEmpty = false := by
    cases h : (save ts).isEmpty
    · rfl
    · exfalso
      have h2 : save ts = "" := (String.isEmpty_iff (save ts)).mp h
      have h3 : (save ts).data = [] := by rw [h2]
      rw [save] at h3
      rw [show (String.mk (renderJson (encodeTodos ts))).data
          = renderJson (encodeTodos ts) from rfl] at h3
      rw [show renderJson (encodeTodos ts)
          = '[' :: (renderItems (ts.map encodeTodo) ++ [']']) from by
        simp [encodeTodos, renderJson]] at h3
      simp at h3
  rw [load]
  rw [if_neg (by rw [hemp]; simp)]
  rw [parseJson_save]
  simp [decodeTodos_encodeTodos]

/-- Counterexample to C5 as stated: an empty string stored in the slot
is malformed (`JSON.parse` rejects it), yet the load effect leaves the
slot in place instead of clearing it, because the truthiness guard
skips parsing entirely. -/
theorem load_empty_string_counterexample :
    parseJson "" = none ∧ load (some "") = (some "", [])
    ∧ load (some "") ≠ ((none : Option String), ([] : List Todo)) := by
  refine ⟨rfl, rfl, by decide⟩

/-- C5 (amended): load returns the empty collection when the slot is
absent; an empty stored string is skipped without parsing, leaving the
slot and the empty collection untouched; nonempty stored text that
fails to parse is caught, the slot is cleared, and the empty collection
is returned — the parse failure never propagates. -/
theorem load_error_handling :
    load none = ((none : Option String), ([] : List Todo))
    ∧ load (some "") = (some "", [])
    ∧ ∀ s : String, s.isEmpty = false → parseJson s = none → load (some s) = (none, []) := by
  refine ⟨rfl, rfl, ?_⟩
  intro s hs hp
  rw [load]
  rw [if_neg (by rw [hs]; simp)]
  rw [hp]

/-- Witness: a lone opening bracket is caught, clearing the slot. -/
theorem load_error_handling_witness :
    load (some "[") = ((none : Option String), ([] : List Todo)) :=
  load_error_handling.2.2 "[" rfl rfl
